import Mathlib

/-!
Verification of the shell-command security gate, rate-limit detection and
session-driver logic of the `dev-space` repository (sources:
`feature-coding-agent/security.py`, `feature-coding-agent/agent.py`,
`feature-coding-agent/progress.py`).

The Python sources are shallowly embedded: strings become `String` /
`List Char`, `shlex.split` and the two `re.split` calls are embedded as
executable character-level scanners with the exact semantics the CPython
implementations have on these fixed patterns, exceptions become `Option` /
explicit constructors, and the `with`-statement and the session loop become
pure state-passing functions.
-/

/-! ## Character classes

`shlex.whitespace` is the four characters " \t\r\n"; Python's `re` class
`\s` and `str.strip()` / `str.split()` additionally treat form feed and
vertical tab as whitespace (inputs here are ASCII). -/

def isShlexWS (c : Char) : Bool :=
  c = ' ' || c = '\t' || c = '\r' || c = '\n'

def isReWS (c : Char) : Bool :=
  c = ' ' || c = '\t' || c = '\n' || c = '\r' || c = '\x0b' || c = '\x0c'

def isPyWS (c : Char) : Bool :=
  c = ' ' || c = '\t' || c = '\n' || c = '\r' || c = '\x0b' || c = '\x0c'

/-- The single-quote character (written via its code point). -/
def squote : Char := Char.ofNat 39

/-- The double-quote character. -/
def dquote : Char := '"'

/-! ## `shlex.split` (POSIX mode, `whitespace_split=True`, no comments)

A faithful embedding of CPython's `shlex.read_token` state machine for the
configuration used by `shlex.split`:  states are "between tokens"
(`LexState.ws`), "inside a word" (`LexState.word`), inside single or double
quotes, and the two escape states (escaping outside quotes resp. inside
double quotes; single quotes admit no escapes).  An unterminated quote or a
trailing backslash raises `ValueError`, embedded as `none`. -/

inductive LexState where
  | ws | word | sq | dq | escW | escD
deriving Repr, DecidableEq

/-- Emit a finished token: in POSIX mode an empty token is produced only if
a quote was seen while reading it (`if posix and not quoted and result == ..`
in `shlex.read_token`). The token accumulator is kept reversed. -/
def emitTok (tok : List Char) (quoted : Bool) (acc : List String) : List String :=
  if tok.isEmpty && !quoted then acc else acc ++ [String.mk tok.reverse]

def shlexAux : LexState → Bool → List Char → List String → List Char →
    Option (List String)
  | .ws, _, _, acc, [] => some acc
  | .word, q, tok, acc, [] => some (emitTok tok q acc)
  | .sq, _, _, _, [] => none
  | .dq, _, _, _, [] => none
  | .escW, _, _, _, [] => none
  | .escD, _, _, _, [] => none
  | .ws, q, tok, acc, c :: cs =>
    if isShlexWS c then shlexAux .ws q tok acc cs
    else if c = '\\' then shlexAux .escW q tok acc cs
    else if c = squote then shlexAux .sq true tok acc cs
    else if c = dquote then shlexAux .dq true tok acc cs
    else shlexAux .word q (c :: tok) acc cs
  | .word, q, tok, acc, c :: cs =>
    if isShlexWS c then shlexAux .ws false [] (emitTok tok q acc) cs
    else if c = '\\' then shlexAux .escW q tok acc cs
    else if c = squote then shlexAux .sq true tok acc cs
    else if c = dquote then shlexAux .dq true tok acc cs
    else shlexAux .word q (c :: tok) acc cs
  | .sq, q, tok, acc, c :: cs =>
    if c = squote then shlexAux .word q tok acc cs
    else shlexAux .sq q (c :: tok) acc cs
  | .dq, q, tok, acc, c :: cs =>
    if c = dquote then shlexAux .word q tok acc cs
    else if c = '\\' then shlexAux .escD q tok acc cs
    else shlexAux .dq q (c :: tok) acc cs
  | .escW, q, tok, acc, c :: cs => shlexAux .word q (c :: tok) acc cs
  | .escD, q, tok, acc, c :: cs =>
    if c = dquote || c = '\\' then shlexAux .dq q (c :: tok) acc cs
    else shlexAux .dq q (c :: '\\' :: tok) acc cs

/-- `shlex.split(s)`; `none` models the `ValueError` on unterminated quoting
("No closing quotation" / "No escaped character"). -/
def shlexSplit (s : String) : Option (List String) :=
  shlexAux .ws false [] [] s.data

/-! ## The two `re.split` patterns of `security.py`

`split_command_segments` splits on `\s*(?:&&|\|\|)\s*` and then on
`(?<!["\'])\s*;\s*(?!["\'])`; `extract_commands` uses only the second.
Both are embedded as left-to-right scanners that attempt a match at every
position, exactly as the `re` engine's leftmost-match search does. -/

/-- Split off the maximal run of `re`-whitespace. -/
def takeReWs : List Char → List Char × List Char
  | [] => ([], [])
  | c :: cs =>
    if isReWS c then
      let p := takeReWs cs
      (c :: p.1, p.2)
    else ([], c :: cs)

/-- Try to match `\s*;\s*(?!["\'])` at the head of `s` (the look-behind is
checked by the caller).  Returns the remaining input after the match.  The
greedy trailing `\s*` backtracks by exactly one character when the next
character is a quote (a shorter whitespace run always satisfies the
look-ahead, because whitespace is never a quote); with an empty trailing run
the match attempt fails. -/
def semiMatch (s : List Char) : Option (List Char) :=
  match (takeReWs s).2 with
  | ';' :: afterSemi =>
    let p := takeReWs afterSemi
    match p.2 with
    | c :: _ =>
      if c = squote || c = dquote then
        match p.1.reverse with
        | [] => none
        | w :: _ => some (w :: p.2)
      else some p.2
    | [] => some []
  | _ => none

/-- Scanner for `re.split((?<!["\'])\s*;\s*(?!["\']), s)`.  `prevQuote`
records whether the character before the current position is a quote (the
only property the look-behind tests); after a successful match the last
matched character is `;` or whitespace, never a quote.  Fuel is an upper
bound on the number of steps; every step consumes at least one character,
so `s.length + 1` suffices. -/
def resplitSemiAux : Nat → Bool → List Char → List (List Char) → List Char →
    List (List Char)
  | 0, _, accRev, done, s => done ++ [accRev.reverse ++ s]
  | _ + 1, _, accRev, done, [] => done ++ [accRev.reverse]
  | fuel + 1, prevQuote, accRev, done, c :: cs =>
    if prevQuote then
      resplitSemiAux fuel (c = squote || c = dquote) (c :: accRev) done cs
    else
      match semiMatch (c :: cs) with
      | some rest =>
        resplitSemiAux fuel false [] (done ++ [accRev.reverse]) rest
      | none =>
        resplitSemiAux fuel (c = squote || c = dquote) (c :: accRev) done cs

def resplitSemi (s : List Char) : List (List Char) :=
  resplitSemiAux (s.length + 1) false [] [] s

/-- Try to match `\s*(?:&&|\|\|)\s*` at the head of `s`. -/
def chainMatch (s : List Char) : Option (List Char) :=
  match (takeReWs s).2 with
  | '&' :: '&' :: rest => some (takeReWs rest).2
  | '|' :: '|' :: rest => some (takeReWs rest).2
  | _ => none

/-- Scanner for `re.split(\s*(?:&&|\|\|)\s*, s)`. -/
def resplitChainAux : Nat → List Char → List (List Char) → List Char →
    List (List Char)
  | 0, accRev, done, s => done ++ [accRev.reverse ++ s]
  | _ + 1, accRev, done, [] => done ++ [accRev.reverse]
  | fuel + 1, accRev, done, c :: cs =>
    match chainMatch (c :: cs) with
    | some rest => resplitChainAux fuel [] (done ++ [accRev.reverse]) rest
    | none => resplitChainAux fuel (c :: accRev) done cs

def resplitChain (s : List Char) : List (List Char) :=
  resplitChainAux (s.length + 1) [] [] s

/-! ## Small Python string helpers -/

/-- Python `str.strip()` (ASCII whitespace). -/
def pyStrip (s : List Char) : List Char :=
  ((s.dropWhile isPyWS).reverse.dropWhile isPyWS).reverse

/-- Python `s.startswith(pre)`. -/
def pyStartswith (s pre : String) : Bool :=
  pre.data.isPrefixOf s.data

/-- Python `s.split()` (split on whitespace runs, dropping empties). -/
def pySplitWsAux : List Char → List Char → List String
  | tok, [] => if tok.isEmpty then [] else [String.mk tok.reverse]
  | tok, c :: cs =>
    if isPyWS c then
      if tok.isEmpty then pySplitWsAux [] cs
      else String.mk tok.reverse :: pySplitWsAux [] cs
    else pySplitWsAux (c :: tok) cs

def pySplitWs (s : String) : List String := pySplitWsAux [] s.data

/-- `os.path.basename`: everything after the last `/`. -/
def basenameAux : List Char → List Char → List Char
  | acc, [] => acc.reverse
  | acc, c :: cs => if c = '/' then basenameAux [] cs else basenameAux (c :: acc) cs

def pyBasename (s : String) : String := String.mk (basenameAux [] s.data)

/-- Python `str.isdigit()` on ASCII: nonempty and all decimal digits. -/
def pyIsDigit (l : List Char) : Bool :=
  !l.isEmpty && l.all Char.isDigit

/-- Python `t.lstrip("-")`. -/
def dropDashes (t : String) : List Char :=
  t.data.dropWhile (fun c => c = '-')

/-! ## `security.py`: allowlist and command extraction -/

/-- `ALLOWED_COMMANDS` from `security.py` (a Python set; embedded as the
list of its members in source order). -/
def ALLOWED_COMMANDS : List String :=
  ["ls", "cat", "head", "tail", "wc", "grep", "find", "tree",
   "cp", "mv", "mkdir", "chmod", "touch",
   "pwd", "cd",
   "npm", "npx", "pnpm", "pnpx", "yarn", "node", "bun",
   "python", "python3", "pip", "pip3", "poetry", "uv", "uvx",
   "git",
   "make", "cargo", "go", "dotnet",
   "ps", "lsof", "sleep", "pkill", "kill",
   "pytest", "jest", "vitest", "mocha",
   "echo", "which", "env", "export", "source", "curl", "wget"]

def COMMANDS_NEEDING_EXTRA_VALIDATION : List String := ["pkill", "kill", "chmod"]

/-- The shell reserved words skipped by `extract_commands` (literal braces
written via their code points). -/
def SHELL_KEYWORDS : List String :=
  ["if", "then", "else", "elif", "fi", "for", "while",
   "until", "do", "done", "case", "esac", "in", "!", "\x7b", "\x7d"]

/-- The per-token classification loop of `extract_commands`. -/
def tokenLoop : Bool → List String → List String → List String
  | _, acc, [] => acc
  | expect, acc, t :: ts =>
    if t = "|" || t = "||" || t = "&&" || t = "&" then tokenLoop true acc ts
    else if SHELL_KEYWORDS.contains t then tokenLoop expect acc ts
    else if pyStartswith t "-" then tokenLoop expect acc ts
    else if t.data.contains '=' && !(pyStartswith t "=") then tokenLoop expect acc ts
    else if expect then tokenLoop false (acc ++ [pyBasename t]) ts
    else tokenLoop expect acc ts

/-- The per-segment loop of `extract_commands`; `none` models the
`return []` taken when `shlex.split` raises `ValueError`. -/
def extractLoop : List (List Char) → List String → Option (List String)
  | [], acc => some acc
  | seg :: rest, acc =>
    let seg := pyStrip seg
    if seg.isEmpty then extractLoop rest acc
    else
      match shlexAux .ws false [] [] seg with
      | none => none
      | some [] => extractLoop rest acc
      | some toks => extractLoop rest (tokenLoop true acc toks)

/-- `extract_commands` from `security.py`. -/
def extractCommands (s : String) : List String :=
  (extractLoop (resplitSemi s.data) []).getD []

/-- `split_command_segments` from `security.py`. -/
def splitCommandSegments (s : String) : List String :=
  (resplitChain s.data).foldl
    (fun acc seg =>
      (resplitSemi seg).foldl
        (fun acc sub =>
          let sub := pyStrip sub
          if sub.isEmpty then acc else acc ++ [String.mk sub])
        acc)
    []

/-! ## `security.py`: the three per-command validators -/

/-- `allowed_process_names` from `validate_pkill_command`. -/
def allowed_process_names : List String :=
  ["node", "npm", "npx", "pnpm", "yarn", "vite", "next",
   "python", "python3", "pytest", "uvicorn", "gunicorn"]

/-- The final membership test of `validate_pkill_command`.  The rejection
reason interpolates the Python set repr of `allowed_process_names`, whose
element order CPython leaves unspecified; no claim depends on its text. -/
def pkillCheck (target : String) : Bool × String :=
  if allowed_process_names.contains target then (true, "")
  else (false, "pkill only allowed for dev processes: \x7b...\x7d")

/-- `validate_pkill_command`.  `none` models an uncaught `IndexError`:
when the target consists of whitespace containing a space, Python evaluates
`target.split()[0]` with `target.split() == []`. -/
def validatePkill (s : String) : Option (Bool × String) :=
  match shlexSplit s with
  | none => some (false, "Could not parse pkill command")
  | some [] => some (false, "Empty pkill command")
  | some (_ :: ts) =>
    let args := ts.filter (fun t => !(pyStartswith t "-"))
    match args.getLast? with
    | none => some (false, "pkill requires a process name")
    | some tgt =>
      if tgt.data.contains ' ' then
        match pySplitWs tgt with
        | [] => none
        | w :: _ => some (pkillCheck w)
      else some (pkillCheck tgt)

/-- `allowed_signals` from `validate_kill_command`. -/
def allowed_signals : List String :=
  ["-TERM", "-INT", "-HUP", "-15", "-2", "-1", "-9"]

/-- The token loop of `validate_kill_command` over `tokens[1:]`. -/
def killLoop : List String → Bool × String
  | [] => (true, "")
  | t :: ts =>
    if pyStartswith t "-" && !(allowed_signals.contains t) then
      if !(pyIsDigit (dropDashes t)) then (false, "kill signal " ++ t ++ " not allowed")
      else killLoop ts
    else killLoop ts

/-- `validate_kill_command`. -/
def validateKill (s : String) : Bool × String :=
  match shlexSplit s with
  | none => (false, "Could not parse kill command")
  | some [] => (false, "Empty kill command")
  | some (_ :: ts) => killLoop ts

/-- The character class `[ugoa]`. -/
def isUgoa (c : Char) : Bool :=
  c = 'u' || c = 'g' || c = 'o' || c = 'a'

/-- The mode test `re.match(r"^[ugoa]*\+x$", mode)` of
`validate_chmod_command`.  `[ugoa]*` is maximal-munch here because `+` is
not in the class, and Python's `$` (without `re.MULTILINE`) matches at the
end of the string or just before one trailing newline, so a mode ending in
a single `\n` after `+x` is also accepted. -/
def chmodModeOk (m : String) : Bool :=
  m.data.dropWhile isUgoa = ['+', 'x'] || m.data.dropWhile isUgoa = ['+', 'x', '\n']

/-- The mode/files loop of `validate_chmod_command` over `tokens[1:]`,
carrying the `mode` and `files` variables. -/
def chmodLoop : List String → Option String → List String → Bool × String
  | [], mode, files =>
    match mode with
    | none => (false, "chmod requires a mode")
    | some m =>
      if files.isEmpty then (false, "chmod requires at least one file")
      else if chmodModeOk m then (true, "")
      else (false, "chmod only allowed with +x mode, got: " ++ m)
  | t :: ts, mode, files =>
    if pyStartswith t "-" then (false, "chmod flags are not allowed")
    else
      match mode with
      | none => chmodLoop ts (some t) files
      | some m => chmodLoop ts (some m) (files ++ [t])

/-- `validate_chmod_command`. -/
def validateChmod (s : String) : Bool × String :=
  match shlexSplit s with
  | none => (false, "Could not parse chmod command")
  | some [] => (false, "Not a chmod command")
  | some (t0 :: ts) =>
    if t0 ≠ "chmod" then (false, "Not a chmod command")
    else chmodLoop ts none []

/-- `get_command_for_validation`. -/
def getCommandForValidation (cmd : String) (segments : List String) : String :=
  match segments.find? (fun seg => (extractCommands seg).contains cmd) with
  | some seg => seg
  | none => ""

/-! ## `security.py`: the hook itself -/

/-- The hook's input: `input_data.get("tool_name")` and
`input_data.get("tool_input", ..).get("command", "")`. -/
structure HookInput where
  tool_name : String
  command : String

/-- The hook's result: the empty dict (no decision), a
`"decision": "block"` dict with a reason, or an uncaught exception
propagating out of the hook. -/
inductive HookResult where
  | empty
  | block (reason : String)
  | exc
deriving Repr, DecidableEq

/-- The `for cmd in commands` loop of `bash_security_hook`. -/
def hookLoop (command : String) (segments : List String) :
    List String → HookResult
  | [] => .empty
  | c :: rest =>
    if !(ALLOWED_COMMANDS.contains c) then
      .block ("Command \x27" ++ c ++ "\x27 is not in the allowed commands list")
    else if COMMANDS_NEEDING_EXTRA_VALIDATION.contains c then
      let seg0 := getCommandForValidation c segments
      let seg := if seg0 = "" then command else seg0
      if c = "pkill" then
        match validatePkill seg with
        | none => .exc
        | some (true, _) => hookLoop command segments rest
        | some (false, reason) => .block reason
      else if c = "kill" then
        match validateKill seg with
        | (true, _) => hookLoop command segments rest
        | (false, reason) => .block reason
      else if c = "chmod" then
        match validateChmod seg with
        | (true, _) => hookLoop command segments rest
        | (false, reason) => .block reason
      else hookLoop command segments rest
    else hookLoop command segments rest

/-- `bash_security_hook`. -/
def bashSecurityHook (input : HookInput) : HookResult :=
  if input.tool_name ≠ "Bash" then .empty
  else if input.command = "" then .empty
  else
    let commands := extractCommands input.command
    if commands.isEmpty then
      .block ("Could not parse command for security validation: " ++ input.command)
    else hookLoop input.command (splitCommandSegments input.command) commands

/-! ## `agent.py`: the rate-limit error pattern

`RateLimitDetector.API_ERROR_PATTERN` is the regex
`"type"\s*:\s*"error".*"message"\s*:\s*"[^"]*reset at \d{4}-\d{2}-\d{2} \d{2}:\d{2}:\d{2}`
(searched, i.e. matched at any position).  It is embedded as an executable
scanner deciding whether a match exists: `.` matches any character except
newline, `[^"]` any character except a double quote, `\s` and `\d` as in
Python.  Greediness is irrelevant to match existence, so each `*` is
realised as a scan over all split points. -/

/-- Match a literal, returning the rest. -/
def stripLit : List Char → List Char → Option (List Char)
  | [], cs => some cs
  | _ :: _, [] => none
  | p :: ps, c :: cs => if p = c then stripLit ps cs else none

/-- Match one given character. -/
def stripChar (c : Char) : List Char → Option (List Char)
  | [] => none
  | x :: xs => if x = c then some xs else none

/-- Match exactly `n` decimal digits. -/
def stripDigits : Nat → List Char → Option (List Char)
  | 0, cs => some cs
  | _ + 1, [] => none
  | n + 1, c :: cs => if c.isDigit then stripDigits n cs else none

/-- One element of the timestamp pattern. -/
inductive TsPart where
  | digits (n : Nat)
  | ch (c : Char)

/-- The timestamp pattern `\d{4}-\d{2}-\d{2} \d{2}:\d{2}:\d{2}`. -/
def tsSpec : List TsPart :=
  [.digits 4, .ch '-', .digits 2, .ch '-', .digits 2, .ch ' ',
   .digits 2, .ch ':', .digits 2, .ch ':', .digits 2]

def stripParts : List TsPart → List Char → Option (List Char)
  | [], cs => some cs
  | .digits n :: ps, cs =>
    match stripDigits n cs with
    | some r => stripParts ps r
    | none => none
  | .ch c :: ps, cs =>
    match stripChar c cs with
    | some r => stripParts ps r
    | none => none

/-- Match the timestamp at the head of `cs`. -/
def tsCheck (cs : List Char) : Bool :=
  (stripParts tsSpec cs).isSome

/-- Drop the maximal run of `\s` characters. -/
def dropSpaces : List Char → List Char
  | [] => []
  | c :: cs => if isReWS c then dropSpaces cs else c :: cs

/-- Scan `[^"]*` looking for `reset at ` followed by the timestamp:
try the literal at every position, advancing only over non-quote
characters. -/
def matchMsgFrom : List Char → Bool
  | [] => false
  | c :: cs =>
    (match stripLit ("reset at ").data (c :: cs) with
     | some r => tsCheck r
     | none => false)
    || (if c = dquote then false else matchMsgFrom cs)

/-- Match `"message"\s*:\s*"` then the `[^"]*reset at <ts>` part. -/
def matchTailAt (cs : List Char) : Bool :=
  match stripLit ("\"message\"").data cs with
  | none => false
  | some r =>
    match stripChar ':' (dropSpaces r) with
    | none => false
    | some r =>
      match stripChar dquote (dropSpaces r) with
      | none => false
      | some r => matchMsgFrom r

/-- Scan `.*` (no newline) looking for the tail part. -/
def dotScan : List Char → Bool
  | [] => false
  | c :: cs => matchTailAt (c :: cs) || (if c = '\n' then false else dotScan cs)

/-- Match `"type"\s*:\s*"error"` then `.*` then the tail. -/
def matchHeadAt (cs : List Char) : Bool :=
  match stripLit ("\"type\"").data cs with
  | none => false
  | some r =>
    match stripChar ':' (dropSpaces r) with
    | none => false
    | some r =>
      match stripLit ("\"error\"").data (dropSpaces r) with
      | none => false
      | some r => dotScan r

/-- `re.search` of the pattern: try a match at every start position. -/
def searchFrom : List Char → Bool
  | [] => false
  | c :: cs => matchHeadAt (c :: cs) || searchFrom cs

/-- `API_ERROR_PATTERN.search(buffer) is not None`. -/
def apiErrorSearch (buf : List Char) : Bool := searchFrom buf

/-! ## `agent.py`: `RateLimitDetector` buffer state -/

structure RateLimitDetectorState where
  rate_limit_detected : Bool
  error_message : List Char
  buffer : List Char
deriving Repr, DecidableEq

def RateLimitDetectorState.init : RateLimitDetectorState :=
  { rate_limit_detected := false, error_message := [], buffer := [] }

/-- The trim step `if len(buffer) > 2000: buffer = buffer[-1000:]`. -/
def trimBuffer (buf : List Char) : List Char :=
  if buf.length > 2000 then buf.drop (buf.length - 1000) else buf

/-- `RateLimitDetector._check_for_rate_limit`: append, search, trim. -/
def checkForRateLimit (st : RateLimitDetectorState) (text : List Char) :
    RateLimitDetectorState :=
  let buf := st.buffer ++ text
  if apiErrorSearch buf then
    { rate_limit_detected := true, error_message := buf, buffer := trimBuffer buf }
  else
    { rate_limit_detected := st.rate_limit_detected,
      error_message := st.error_message, buffer := trimBuffer buf }

/-- Feed a sequence of written chunks through the detector. -/
def runDetector (chunks : List (List Char)) : RateLimitDetectorState :=
  chunks.foldl checkForRateLimit .init

/-! ## `agent.py`: backoff scheduling (`handle_rate_limit`)

`parse_rate_limit_reset_time`'s `datetime.strptime` result is abstracted to
its outcome, an optional reset time in epoch seconds (an `Int`); on
whole-second datetimes `int((reset_time - now).total_seconds())` is the
exact integer difference. -/

def DEFAULT_RATE_LIMIT_WAIT_MINUTES : Int := 30
def RATE_LIMIT_BUFFER_SECONDS : Int := 60
def RATE_LIMIT_RESUME_INTERVAL_SECONDS : Int := 30 * 60

/-- The duration (seconds) of the countdown started by `handle_rate_limit`:
`some w` means `countdown_timer(w)` is awaited, `none` that no countdown is
started at all (the `if wait_seconds > 0` guard fails). -/
def handleRateLimitFirstWait (resetTime : Option Int) (now : Int) : Option Int :=
  match resetTime with
  | some rt =>
    let waitUntilReset := max 0 (rt - now)
    let waitSeconds := waitUntilReset + RATE_LIMIT_BUFFER_SECONDS
    if waitSeconds > 0 then
      if waitSeconds > RATE_LIMIT_RESUME_INTERVAL_SECONDS then
        some (min waitSeconds RATE_LIMIT_RESUME_INTERVAL_SECONDS)
      else some waitSeconds
    else none
  | none => some (DEFAULT_RATE_LIMIT_WAIT_MINUTES * 60)

/-! ## `agent.py`: the `run_feature_agent` main loop

One pass of the `while True` loop, driven by the `status` returned by
`run_agent_session`.  The persisted `progress["sessions"]` counter is
modelled as a field (`get_progress`/`save_progress` round-trip it).
`max_iterations` is `Optional[int]`; Python's truthiness test
`if max_iterations and iteration > max_iterations` makes `Some 0`
behave like `None`. -/

inductive SessionStatus where
  | cont | complete | rate_limit | error
deriving Repr, DecidableEq

structure LoopState where
  iteration : Nat
  sessions : Nat
  stopped : Bool
deriving Repr, DecidableEq

/-- Whether the `Reached max iterations` break fires for iteration `it`. -/
def maxHit (maxIterations : Option Nat) (it : Nat) : Bool :=
  match maxIterations with
  | some m => decide (m ≠ 0) && decide (it > m)
  | none => false

/-- One pass of the loop body of `run_feature_agent`. -/
def loopStep (maxIterations : Option Nat) (st : LoopState)
    (outcome : SessionStatus) : LoopState :=
  if st.stopped then st
  else
    let it := st.iteration + 1
    if maxHit maxIterations it then
      { iteration := it, sessions := st.sessions, stopped := true }
    else
      let sessions := st.sessions + 1
      match outcome with
      | .complete => { iteration := it, sessions := sessions, stopped := true }
      | .cont => { iteration := it, sessions := sessions, stopped := false }
      | .rate_limit => { iteration := it - 1, sessions := sessions, stopped := false }
      | .error => { iteration := it, sessions := sessions, stopped := false }

/-- The loop run over a trace of session outcomes. -/
def runLoop (maxIterations : Option Nat) (outcomes : List SessionStatus)
    (st : LoopState) : LoopState :=
  outcomes.foldl (loopStep maxIterations) st

/-! ## `agent.py`: the `with rate_limit_detector:` scope

`RateLimitDetector.__enter__` saves `sys.stdout.write` / `sys.stderr.write`
and installs wrappers; `__exit__` restores the saved targets (it returns
`False`, so an exception raised by the body propagates).  The `with`
statement guarantees `__exit__` runs on every exit path; the body is an
arbitrary state transformer that finishes either normally or by raising. -/

inductive WriteTarget where
  | original (stream : Nat)
  | wrapped (inner : WriteTarget)
deriving Repr, DecidableEq

structure SysStreams where
  stdoutWrite : WriteTarget
  stderrWrite : WriteTarget
deriving Repr, DecidableEq

structure DetectorSaved where
  savedStdout : Option WriteTarget
  savedStderr : Option WriteTarget

/-- `__enter__`: record the current write targets, install wrappers. -/
def detectorEnter (sys : SysStreams) : SysStreams × DetectorSaved :=
  ({ stdoutWrite := .wrapped sys.stdoutWrite,
     stderrWrite := .wrapped sys.stderrWrite },
   { savedStdout := some sys.stdoutWrite, savedStderr := some sys.stderrWrite })

/-- `__exit__`: restore each saved target (guarded by the truthiness test
`if self._original_stdout_write:`). -/
def detectorExit (saved : DetectorSaved) (sys : SysStreams) : SysStreams :=
  let sys1 :=
    match saved.savedStdout with
    | some w => { sys with stdoutWrite := w }
    | none => sys
  match saved.savedStderr with
  | some w => { sys1 with stderrWrite := w }
  | none => sys1

/-- Whether the body of the `with` block finished normally or raised. -/
inductive BodyOutcome where
  | normal | raised
deriving Repr, DecidableEq

/-- The `with rate_limit_detector:` block around an arbitrary body:
enter, run the body, and (on both exit paths) exit. -/
def withRateLimitDetector (body : SysStreams → BodyOutcome × SysStreams)
    (sys : SysStreams) : BodyOutcome × SysStreams :=
  let entered := detectorEnter sys
  let ran := body entered.1
  (ran.1, detectorExit entered.2 ran.2)

/-! ## `progress.py`: `get_progress` -/

/-- A JSON value as produced by `json.load`. -/
inductive Json where
  | null
  | bool (b : Bool)
  | num (n : Int)
  | str (s : String)
  | arr (xs : List Json)
  | obj (fields : List (String × Json))

/-- The state `progress.json` can be in, as far as `get_progress` can
observe it: missing; readable-but-raises `IOError`; decodable text that is
not JSON (`json.JSONDecodeError`); bytes that are not valid in the text
encoding, on which `json.load` raises `UnicodeDecodeError` (a `ValueError`
that is neither a `JSONDecodeError` nor an `IOError`); or parsed to a JSON
document. -/
inductive ProgressDoc where
  | absent
  | ioError
  | malformed
  | undecodable
  | parsed (j : Json)

/-- The outcome of `get_progress` at its interface: a returned record, or
an exception propagating to the caller. -/
inductive LoadResult where
  | ok (j : Json)
  | exc

/-- The default record returned by `get_progress`. -/
def defaultProgress : Json :=
  .obj [("status", .str "pending"), ("criteria", .arr []),
        ("completed_criteria", .arr []), ("sessions", .num 0)]

/-- `get_progress`: the exists-check and the
`except (json.JSONDecodeError, IOError)` clause turn a missing file and
both caught failure modes into the default record; an undecodable file
raises out of the function, because `UnicodeDecodeError` matches neither
handler. -/
def get_progress (doc : ProgressDoc) : LoadResult :=
  match doc with
  | .absent => .ok defaultProgress
  | .ioError => .ok defaultProgress
  | .malformed => .ok defaultProgress
  | .undecodable => .exc
  | .parsed j => .ok j

/-! ## Proof-auxiliary definitions and concrete test vectors -/

/-- Proof auxiliary: the disjunction of `matchHeadAt` over all positions
inside `l`, each continuing into `rest` (used to decompose `searchFrom`
over an append). -/
def searchPrefixAux : List Char → List Char → Bool
  | [], _ => false
  | c :: cs, rest => matchHeadAt ((c :: cs) ++ rest) || searchPrefixAux cs rest

/-- `b` occurs contiguously inside `J`. -/
def isSegmentOf (b J : List Char) : Prop := ∃ u v, u ++ b ++ v = J

/-- The 13-character tail of the error-type marker. -/
def c5headTail : List Char :=
  ['t', 'y', 'p', 'e', '"', ':', '"', 'e', 'r', 'r', 'o', 'r', '"']

/-- The error-type marker `"type":"error"` as a character list. -/
def c5headL : List Char := '"' :: c5headTail

/-- 2001 filler characters (no newline, so the regex `.*` can span them). -/
def c5filler : List Char := List.replicate 2001 'a'

/-- The message/timestamp tail of the error shape. -/
def c5tailL : List Char := ("\"message\":\"reset at 2025-12-11 18:18:44\"").data

/-- Two chunks whose concatenation contains the full error shape, but whose
first chunk alone pushes the buffer past the 2000-character cap, so the
marker is trimmed away before the tail arrives. -/
def c5chunks : List (List Char) := [c5headL ++ c5filler, c5tailL]

/-- The spec's example fragment, first part (literal braces escaped). -/
def specFragA : List Char :=
  ("\x7b\"type\":\"error\",\"error\":\x7b\"type\":\"1308\",\"message\":\"...reset at 2025-").data

/-- The spec's example fragment, second part. -/
def specFragB : List Char := ("12-11 18:18:44\"").data

/-- Ordinary text mentioning the word `error` without the structured shape. -/
def plainErrorChunks : List (List Char) :=
  [("there was an error").data, (" while running the tests").data]

/-- The command string on which `bash_security_hook` raises `IndexError`. -/
def pkillCrashCmd : String := "pkill \x27  \x27 && rm x"

/-- A chmod command whose single-quoted mode token ends in a newline. -/
def chmodNewlineCmd : String := "chmod \x27u+x\n\x27 f"

/-! # Theorems -/

/-! ## C6: backoff scheduling -/

/-- C6: when a reset timestamp is parsed, the countdown started by
`handle_rate_limit` is `max(0, resetTime - now) + 60` seconds capped at the
30-minute resume interval (1800 s); a reset time 45 minutes (2700 s) in the
future yields exactly 1800 s; when no timestamp parses, the fixed
30-minute default (1800 s) is used. -/
theorem C6_backoff_first_wait :
    (∀ rt now : Int, handleRateLimitFirstWait (some rt) now =
      some (min (max 0 (rt - now) + 60) 1800)) ∧
    (∀ now : Int, handleRateLimitFirstWait (some (now + 2700)) now = some 1800) ∧
    (∀ now : Int, handleRateLimitFirstWait none now = some 1800) := by
  have key : ∀ rt now : Int, handleRateLimitFirstWait (some rt) now =
      some (min (max 0 (rt - now) + 60) 1800) := by
    intro rt now
    have h0 : (0 : Int) ≤ max 0 (rt - now) := le_max_left _ _
    have hpos : max 0 (rt - now) + RATE_LIMIT_BUFFER_SECONDS > 0 := by
      unfold RATE_LIMIT_BUFFER_SECONDS; omega
    simp only [handleRateLimitFirstWait, RATE_LIMIT_BUFFER_SECONDS,
      RATE_LIMIT_RESUME_INTERVAL_SECONDS] at *
    rw [if_pos hpos]
    by_cases h : max 0 (rt - now) + 60 > 30 * 60
    · rw [if_pos h]; norm_num
    · rw [if_neg h]
      have : min (max 0 (rt - now) + 60) 1800 = max 0 (rt - now) + 60 :=
        min_eq_left (by omega)
      rw [this]
  refine ⟨key, fun now => ?_, fun now => ?_⟩
  · rw [key]
    have h1 : now + 2700 - now = 2700 := by ring
    rw [h1]
    norm_num
  · simp only [handleRateLimitFirstWait, DEFAULT_RATE_LIMIT_WAIT_MINUTES]
    norm_num

/-! ## C8: the Progress Store load and its uncaught encoding error -/

/-- C8 (code bug): `get_progress` returns the default record
`status "pending", criteria [], completed_criteria [], sessions 0` for a
missing, unreadable (`IOError`) or non-JSON (`JSONDecodeError`) progress
document, but a document whose bytes are not valid in the text encoding
makes `json.load` raise `UnicodeDecodeError`, which
`except (json.JSONDecodeError, IOError)` does not catch — the load raises
to the caller, refuting "never raises" for that corruption mode. -/
theorem C8_progress_load_unicode_crash :
    get_progress .absent = .ok defaultProgress ∧
    get_progress .ioError = .ok defaultProgress ∧
    get_progress .malformed = .ok defaultProgress ∧
    get_progress .undecodable = .exc ∧
    defaultProgress = Json.obj
      [("status", .str "pending"), ("criteria", .arr []),
       ("completed_criteria", .arr []), ("sessions", .num 0)] :=
  ⟨rfl, rfl, rfl, rfl, rfl⟩

/-! ## C9: the detector scope always restores the write targets -/

/-- C9: for every body (normally completing or raising) run inside the
`with rate_limit_detector:` scope, the original `sys.stdout.write` and
`sys.stderr.write` targets are restored on exit. -/
theorem C9_detector_scope_restores_streams :
    ∀ (body : SysStreams → BodyOutcome × SysStreams) (sys : SysStreams),
      (withRateLimitDetector body sys).2.stdoutWrite = sys.stdoutWrite ∧
      (withRateLimitDetector body sys).2.stderrWrite = sys.stderrWrite := by
  intro body sys
  simp [withRateLimitDetector, detectorEnter, detectorExit]

/-! ## C10: non-Bash tools get an empty result -/

/-- C10: for every hook input whose `tool_name` is not `"Bash"`, the
security hook returns the empty result (no decision). -/
theorem C10_non_bash_tools_untouched :
    ∀ input : HookInput, input.tool_name ≠ "Bash" →
      bashSecurityHook input = .empty := by
  intro input h
  unfold bashSecurityHook
  rw [if_pos h]

/-- Witness for C10 at the concrete input `tool_name = "Read"`. -/
theorem C10_witness :
    (HookInput.mk "Read" "rm -rf /").tool_name ≠ "Bash" ∧
    bashSecurityHook (HookInput.mk "Read" "rm -rf /") = .empty :=
  ⟨by decide, C10_non_bash_tools_untouched (HookInput.mk "Read" "rm -rf /") (by decide)⟩

/-! ## C7: the sessions counter versus loop outcomes -/

/-- C7 counterexample: starting from iteration 0 / sessions 0, a single
loop pass whose outcome is `rate_limit` leaves the iteration number at 0
(the same iteration is re-run) but increments the persisted sessions
counter from 0 to 1 — contradicting the claim that a `rate_limit` outcome
does not increment the counter. -/
theorem C7_counterexample :
    (loopStep none (LoopState.mk 0 0 false) .rate_limit).sessions = 1 ∧
    (loopStep none (LoopState.mk 0 0 false) .rate_limit).iteration = 0 :=
  ⟨rfl, rfl⟩

/-- C7 amended: on every non-terminated loop pass (not stopped, max-iteration
break not hit) the sessions counter is incremented exactly once regardless of
the outcome — including `rate_limit`, whose retry increments it again; a
`rate_limit` outcome leaves the iteration number unchanged; and the counter
is never decremented by any pass. -/
theorem C7_amended_sessions_counter :
    (∀ (maxI : Option Nat) (st : LoopState) (o : SessionStatus),
        st.stopped = false → maxHit maxI (st.iteration + 1) = false →
        (loopStep maxI st o).sessions = st.sessions + 1) ∧
    (∀ (maxI : Option Nat) (st : LoopState),
        st.stopped = false → maxHit maxI (st.iteration + 1) = false →
        (loopStep maxI st .rate_limit).iteration = st.iteration) ∧
    (∀ (maxI : Option Nat) (st : LoopState) (o : SessionStatus),
        st.sessions ≤ (loopStep maxI st o).sessions) := by
  refine ⟨?_, ?_, ?_⟩
  · intro maxI st o hstop hmax
    unfold loopStep
    rw [hstop]
    simp only [Bool.false_eq_true, if_false, hmax]
    cases o <;> rfl
  · intro maxI st hstop hmax
    unfold loopStep
    rw [hstop]
    simp only [Bool.false_eq_true, if_false, hmax]
    rfl
  · intro maxI st o
    unfold loopStep
    by_cases hstop : st.stopped = true
    · rw [hstop]; simp
    · rw [Bool.not_eq_true] at hstop
      rw [hstop]
      simp only [Bool.false_eq_true, if_false]
      by_cases hmax : maxHit maxI (st.iteration + 1) = true
      · rw [hmax]; simp
      · rw [Bool.not_eq_true] at hmax
        rw [hmax]
        simp only [Bool.false_eq_true, if_false]
        cases o <;> simp

/-- Witness for C7's amended theorem at a concrete state. -/
theorem C7_amended_witness :
    (LoopState.mk 3 5 false).stopped = false ∧
    maxHit none ((LoopState.mk 3 5 false).iteration + 1) = false ∧
    (loopStep none (LoopState.mk 3 5 false) .error).sessions = 5 + 1 ∧
    (loopStep none (LoopState.mk 3 5 false) .rate_limit).iteration = 3 :=
  ⟨rfl, rfl, C7_amended_sessions_counter.1 none (LoopState.mk 3 5 false) .error rfl rfl,
   C7_amended_sessions_counter.2.1 none (LoopState.mk 3 5 false) rfl rfl⟩

/-! ## C1: the gate on compound commands with a disallowed program -/

/-- C1 (code bug): on the command string `pkill '  ' && rm x` the extracted
invocations are `pkill` and `rm`, `rm` is not in the allowlist, yet the hook
raises (`validate_pkill_command` evaluates `target.split()[0]` with
`target.split() == []` for the all-whitespace target) instead of returning
the block decision the claim promises. -/
theorem C1_pkill_crash_eval :
    extractCommands pkillCrashCmd = ["pkill", "rm"] ∧
    ALLOWED_COMMANDS.contains "rm" = false ∧
    bashSecurityHook (HookInput.mk "Bash" pkillCrashCmd) = .exc :=
  ⟨rfl, rfl, rfl⟩

/-! ## C2: unparsable command strings -/

/-- C2 counterexample: for the empty command string the hook returns the
empty result (no decision at all), not a block with a parse-failure
reason as the claim states. -/
theorem C2_counterexample_empty_string :
    bashSecurityHook (HookInput.mk "Bash" "") = .empty :=
  rfl

/-- C2 amended: for every nonempty command string from which no invocation
can be extracted (whitespace-only, unterminated quote), the gate blocks with
the parse-failure reason; the empty command string is instead returned
without any decision. -/
theorem C2_amended_parse_failure_blocks :
    (∀ s : String, s ≠ "" → extractCommands s = [] →
      bashSecurityHook (HookInput.mk "Bash" s) =
        .block ("Could not parse command for security validation: " ++ s)) ∧
    bashSecurityHook (HookInput.mk "Bash" "") = .empty := by
  refine ⟨?_, rfl⟩
  intro s hne hext
  unfold bashSecurityHook
  rw [if_neg (by simp : ¬((HookInput.mk "Bash" s).tool_name ≠ "Bash"))]
  simp only [HookInput.mk.injEq]
  rw [if_neg hne]
  simp [hext]

/-- Witness for C2's amended theorem at a whitespace-only string and at an
unterminated quote. -/
theorem C2_amended_witness :
    (" " ≠ "") ∧ extractCommands " " = [] ∧
    bashSecurityHook (HookInput.mk "Bash" " ") =
      .block ("Could not parse command for security validation: " ++ " ") ∧
    ("echo \x27oops" ≠ "") ∧ extractCommands "echo \x27oops" = [] ∧
    bashSecurityHook (HookInput.mk "Bash" "echo \x27oops") =
      .block ("Could not parse command for security validation: " ++ "echo \x27oops") :=
  ⟨by decide, rfl, C2_amended_parse_failure_blocks.1 " " (by decide) rfl,
   by decide, rfl, C2_amended_parse_failure_blocks.1 "echo \x27oops" (by decide) rfl⟩

/-! ## C3: kill validation -/

/-- C3 counterexample: the token `abc` is neither a recognized signal flag
nor purely numeric, yet `validate_kill_command` accepts `kill abc` and the
whole gate allows it (the validator only examines tokens that begin with a
dash) — contradicting the claim that such a token is rejected. -/
theorem C3_counterexample_kill_abc :
    validateKill "kill abc" = (true, "") ∧
    bashSecurityHook (HookInput.mk "Bash" "kill abc") = .empty :=
  ⟨rfl, rfl⟩

/-- `killLoop` accepts exactly when every flag-shaped token is an allowed
signal or all-digits after stripping leading dashes. -/
theorem killLoop_iff (ts : List String) :
    killLoop ts = (true, "") ↔
      ∀ t ∈ ts, pyStartswith t "-" = true →
        (t ∈ allowed_signals ∨ pyIsDigit (dropDashes t) = true) := by
  induction ts with
  | nil => simp [killLoop]
  | cons t ts ih =>
    by_cases h1 : pyStartswith t "-" = true
    · by_cases h2 : t ∈ allowed_signals
      · simp [killLoop, h1, h2, ih]
      · by_cases h3 : pyIsDigit (dropDashes t) = true
        · simp [killLoop, h1, h2, h3, ih]
        · simp [killLoop, h1, h2, h3, ih]
    · simp [killLoop, h1, ih]

/-- C3 amended: in kill validation only flag-shaped tokens (leading dash)
after the command name are examined: the segment is accepted iff every such
token is one of `-TERM, -INT, -HUP, -15, -2, -1, -9` or consists of digits
after stripping leading dashes; non-flag tokens are never rejected.
Consequently `kill -9 1234` is allowed and `kill -KILL 1234` is blocked. -/
theorem C3_amended_kill_validation :
    (∀ (s t0 : String) (ts : List String),
        shlexSplit s = some (t0 :: ts) →
        (validateKill s = (true, "") ↔
          ∀ t ∈ ts, pyStartswith t "-" = true →
            (t ∈ allowed_signals ∨ pyIsDigit (dropDashes t) = true))) ∧
    bashSecurityHook (HookInput.mk "Bash" "kill -9 1234") = .empty ∧
    bashSecurityHook (HookInput.mk "Bash" "kill -KILL 1234") =
      .block "kill signal -KILL not allowed" := by
  refine ⟨?_, rfl, rfl⟩
  intro s t0 ts h
  unfold validateKill
  rw [h]
  exact killLoop_iff ts

/-- Witness for C3's amended theorem at `kill -9 1234`. -/
theorem C3_amended_witness :
    shlexSplit "kill -9 1234" = some ("kill" :: ["-9", "1234"]) ∧
    (validateKill "kill -9 1234" = (true, "") ↔
      ∀ t ∈ ["-9", "1234"], pyStartswith t "-" = true →
        (t ∈ allowed_signals ∨ pyIsDigit (dropDashes t) = true)) :=
  ⟨rfl, C3_amended_kill_validation.1 "kill -9 1234" "kill" ["-9", "1234"] rfl⟩

/-! ## C4: chmod validation -/

/-- Accepting states of the chmod token loop once a mode has been seen. -/
theorem chmodLoop_some_iff (ts : List String) (m : String) (files : List String) :
    chmodLoop ts (some m) files = (true, "") ↔
      (∀ t ∈ ts, pyStartswith t "-" = false) ∧
      files ++ ts ≠ [] ∧ chmodModeOk m = true := by
  induction ts generalizing files with
  | nil =>
    cases files with
    | nil => simp [chmodLoop]
    | cons f fs =>
      by_cases hm : chmodModeOk m = true
      · simp [chmodLoop, hm]
      · simp [chmodLoop, hm]
  | cons t ts ih =>
    by_cases h1 : pyStartswith t "-" = true
    · simp [chmodLoop, h1]
    · rw [Bool.not_eq_true] at h1
      simp only [chmodLoop, h1, Bool.false_eq_true, if_false, ih]
      constructor
      · rintro ⟨ha, _, hm⟩
        refine ⟨fun x hx => ?_, by simp, hm⟩
        rcases List.mem_cons.mp hx with rfl | hx
        · exact h1
        · exact ha x hx
      · rintro ⟨ha, _, hm⟩
        exact ⟨fun x hx => ha x (List.mem_cons_of_mem _ hx), by simp, hm⟩

/-- The full chmod token loop (no mode seen yet, as entered from
`validate_chmod_command`). -/
theorem chmodLoop_none_iff (ts : List String) :
    chmodLoop ts none [] = (true, "") ↔
      (∀ t ∈ ts, pyStartswith t "-" = false) ∧
      ∃ mode files, ts = mode :: files ∧ files ≠ [] ∧ chmodModeOk mode = true := by
  cases ts with
  | nil => simp [chmodLoop]
  | cons m rest =>
    by_cases h1 : pyStartswith m "-" = true
    · simp [chmodLoop, h1]
    · rw [Bool.not_eq_true] at h1
      simp only [chmodLoop, h1, Bool.false_eq_true, if_false]
      rw [chmodLoop_some_iff]
      constructor
      · rintro ⟨ha, hne, hm⟩
        refine ⟨fun x hx => ?_, m, rest, rfl, by simpa using hne, hm⟩
        rcases List.mem_cons.mp hx with rfl | hx
        · exact h1
        · exact ha x hx
      · rintro ⟨ha, mode, files, heq, hne, hm⟩
        injection heq with he1 he2
        subst he1
        subst he2
        exact ⟨fun x hx => ha x (List.mem_cons_of_mem _ hx), by simpa using hne, hm⟩

/-- The set of characters a run of `[ugoa]` has consumed is transparent to
`dropWhile`. -/
theorem dropWhile_all_append (pre l : List Char)
    (h : ∀ c ∈ pre, isUgoa c = true) :
    (pre ++ l).dropWhile isUgoa = l.dropWhile isUgoa := by
  induction pre with
  | nil => rfl
  | cons c cs ih =>
    rw [List.cons_append, List.dropWhile_cons, if_pos (h c (by simp))]
    exact ih (fun x hx => h x (List.mem_cons_of_mem _ hx))

/-- `chmodModeOk` in declarative form: characters from `u/g/o/a`, then
`+x`, then nothing or one newline (the `$`-before-trailing-newline case). -/
theorem chmodModeOk_iff (m : String) :
    chmodModeOk m = true ↔
      ∃ pre nl, m.data = pre ++ ['+', 'x'] ++ nl ∧
        (∀ c ∈ pre, isUgoa c = true) ∧ (nl = [] ∨ nl = ['\n']) := by
  unfold chmodModeOk
  rw [Bool.or_eq_true]
  simp only [decide_eq_true_eq]
  constructor
  · rintro (h | h)
    · refine ⟨m.data.takeWhile isUgoa, [], ?_,
        fun c hc => List.mem_takeWhile_imp hc, Or.inl rfl⟩
      rw [List.append_nil, ← h, List.takeWhile_append_dropWhile]
    · refine ⟨m.data.takeWhile isUgoa, ['\n'], ?_,
        fun c hc => List.mem_takeWhile_imp hc, Or.inr rfl⟩
      rw [List.append_assoc]
      rw [show (['+', 'x'] ++ ['\n'] : List Char) = ['+', 'x', '\n'] from rfl]
      rw [← h, List.takeWhile_append_dropWhile]
  · rintro ⟨pre, nl, hm, hpre, hnl⟩
    have hdrop : m.data.dropWhile isUgoa = ['+', 'x'] ++ nl := by
      rw [hm, List.append_assoc, dropWhile_all_append pre _ hpre]
      show List.dropWhile isUgoa ('+' :: ('x' :: nl)) = '+' :: ('x' :: nl)
      rw [List.dropWhile_cons, if_neg (by decide)]
    rcases hnl with rfl | rfl
    · left
      rw [hdrop, List.append_nil]
    · right
      rw [hdrop]
      rfl

/-- C4 counterexample: the gate allows `chmod 'u+x<newline>' f`.  The
single-quoted mode token `u+x\n` ends in a newline, so it is not
"characters from u/g/o/a followed by `+x`", yet
`re.match(r"^[ugoa]*\+x$", ..)` accepts it because `$` also matches just
before one trailing newline — refuting the claimed acceptance boundary. -/
theorem C4_counterexample_newline_mode :
    shlexSplit chmodNewlineCmd = some ["chmod", "u+x\n", "f"] ∧
    validateChmod chmodNewlineCmd = (true, "") ∧
    bashSecurityHook (HookInput.mk "Bash" chmodNewlineCmd) = .empty ∧
    ¬ ("u+x\n").data.dropWhile isUgoa = ['+', 'x'] :=
  ⟨rfl, rfl, rfl, by decide⟩

/-- C4 amended: chmod validation rejects any flag token; the segment must
be the literal `chmod`, then exactly one mode token, then at least one
file; the mode is accepted iff it is characters from `u/g/o/a` followed by
`+x`, optionally followed by a single trailing newline (Python's `$`
matches before one trailing newline).  Hence `chmod +x file.sh` and
`chmod 'u+x<newline>' f` are allowed while `chmod 755 file.sh` and
`chmod -R +x dir` are blocked. -/
theorem C4_amended_chmod_validation :
    (∀ (s : String) (toks : List String), shlexSplit s = some toks →
      (validateChmod s = (true, "") ↔
        toks.head? = some "chmod" ∧
        (∀ t ∈ toks.tail, pyStartswith t "-" = false) ∧
        ∃ mode files, toks.tail = mode :: files ∧ files ≠ [] ∧
          chmodModeOk mode = true)) ∧
    (∀ m : String, chmodModeOk m = true ↔
      ∃ pre nl, m.data = pre ++ ['+', 'x'] ++ nl ∧
        (∀ c ∈ pre, isUgoa c = true) ∧ (nl = [] ∨ nl = ['\n'])) ∧
    bashSecurityHook (HookInput.mk "Bash" "chmod +x file.sh") = .empty ∧
    bashSecurityHook (HookInput.mk "Bash" "chmod 755 file.sh") =
      .block "chmod only allowed with +x mode, got: 755" ∧
    bashSecurityHook (HookInput.mk "Bash" "chmod -R +x dir") =
      .block "chmod flags are not allowed" ∧
    bashSecurityHook (HookInput.mk "Bash" chmodNewlineCmd) = .empty := by
  refine ⟨?_, chmodModeOk_iff, rfl, rfl, rfl, rfl⟩
  intro s toks h
  unfold validateChmod
  rw [h]
  cases toks with
  | nil => simp
  | cons t0 ts =>
    by_cases h0 : t0 = "chmod"
    · subst h0
      simp only [ne_eq, not_true_eq_false, if_false, List.head?_cons,
        Option.some.injEq, List.tail_cons]
      rw [chmodLoop_none_iff]
      simp
    · simp [h0]

/-- Witness for C4's amended characterization at `chmod +x file.sh` and for
the mode-shape equivalence at the plain mode `+x`. -/
theorem C4_amended_witness :
    shlexSplit "chmod +x file.sh" = some ["chmod", "+x", "file.sh"] ∧
    (validateChmod "chmod +x file.sh" = (true, "") ↔
      ["chmod", "+x", "file.sh"].head? = some "chmod" ∧
      (∀ t ∈ (["chmod", "+x", "file.sh"] : List String).tail,
        pyStartswith t "-" = false) ∧
      ∃ mode files, (["chmod", "+x", "file.sh"] : List String).tail = mode :: files ∧
        files ≠ [] ∧ chmodModeOk mode = true) ∧
    (chmodModeOk "+x" = true ↔
      ∃ pre nl, ("+x").data = pre ++ ['+', 'x'] ++ nl ∧
        (∀ c ∈ pre, isUgoa c = true) ∧ (nl = [] ∨ nl = ['\n'])) :=
  ⟨rfl, C4_amended_chmod_validation.1 "chmod +x file.sh" ["chmod", "+x", "file.sh"] rfl,
   C4_amended_chmod_validation.2.1 "+x"⟩

/-! ## C5: split detection in the rate-limit scanner

First the counterexample: the buffer cap (`buffer[-1000:]` once the length
exceeds 2000) can discard the `"type":"error"` marker before the rest of the
shape arrives, so a shape split across chunks is not always detected even
though the concatenation matches the pattern. -/

theorem searchFrom_cons (c : Char) (cs : List Char) :
    searchFrom (c :: cs) = (matchHeadAt (c :: cs) || searchFrom cs) := rfl

/-- `.*` scanning passes over a run of `a`s (no tail match starts at an
`a`, and `a` is not a newline). -/
theorem dotScan_replicate_a (n : Nat) (rest : List Char) :
    dotScan (List.replicate n 'a' ++ rest) = dotScan rest := by
  induction n with
  | zero => simp
  | succ k ih =>
    rw [List.replicate_succ, List.cons_append]
    have hm : matchTailAt ('a' :: (List.replicate k 'a' ++ rest)) = false := rfl
    simp only [dotScan, hm, Bool.false_or]
    rw [if_neg (by decide : ¬('a' = '\n'))]
    exact ih

/-- The pattern search passes over a run of `a`s (no head match starts at
an `a`). -/
theorem searchFrom_replicate_a (n : Nat) (rest : List Char) :
    searchFrom (List.replicate n 'a' ++ rest) = searchFrom rest := by
  induction n with
  | zero => simp
  | succ k ih =>
    rw [List.replicate_succ, List.cons_append, searchFrom_cons]
    have hm : matchHeadAt ('a' :: (List.replicate k 'a' ++ rest)) = false := rfl
    rw [hm, Bool.false_or, ih]

/-- Decompose a search over an append into the positions inside the first
part and the search over the second part. -/
theorem searchFrom_append_eq (l rest : List Char) :
    searchFrom (l ++ rest) = (searchPrefixAux l rest || searchFrom rest) := by
  induction l with
  | nil => simp [searchPrefixAux]
  | cons c cs ih =>
    simp only [List.cons_append, searchFrom_cons, searchPrefixAux, ih, Bool.or_assoc]

theorem c5_headwalk : searchPrefixAux c5headTail c5filler = false := rfl

theorem c5_search1 : apiErrorSearch (c5headL ++ c5filler) = false := by
  show searchFrom (c5headL ++ c5filler) = false
  rw [searchFrom_append_eq]
  have h0 : searchPrefixAux c5headL c5filler =
      (matchHeadAt (c5headL ++ c5filler) || searchPrefixAux c5headTail c5filler) := rfl
  have h1 : matchHeadAt (c5headL ++ c5filler) = dotScan c5filler := rfl
  have h2 : dotScan c5filler = false := by
    have h := dotScan_replicate_a 2001 []
    rw [List.append_nil] at h
    exact h
  have h3 : searchFrom c5filler = false := by
    have h := searchFrom_replicate_a 2001 []
    rw [List.append_nil] at h
    exact h
  rw [h0, h1, h2, c5_headwalk, h3]
  rfl

theorem c5_trim1 : trimBuffer (c5headL ++ c5filler) = List.replicate 1000 'a' := by
  have h14 : c5headL.length = 14 := rfl
  have hfl : c5filler.length = 2001 := by
    unfold c5filler
    rw [List.length_replicate]
  have hlen : (c5headL ++ c5filler).length = 2015 := by
    rw [List.length_append, h14, hfl]
  unfold trimBuffer
  rw [hlen, if_pos (by norm_num)]
  have h1015 : (2015 - 1000 : Nat) = c5headL.length + 1001 := by rw [h14]
  rw [h1015, List.drop_append]
  show List.drop 1001 (List.replicate 2001 'a') = _
  rw [List.drop_replicate]

theorem c5_search2 : apiErrorSearch (List.replicate 1000 'a' ++ c5tailL) = false := by
  show searchFrom _ = false
  rw [searchFrom_replicate_a]
  rfl

theorem c5_flatten_eq : c5chunks.flatten = c5headL ++ (c5filler ++ c5tailL) := by
  simp [c5chunks, List.flatten_cons, List.append_assoc]

theorem c5_searchJ : apiErrorSearch c5chunks.flatten = true := by
  show searchFrom c5chunks.flatten = true
  rw [c5_flatten_eq]
  rw [show c5headL = '"' :: c5headTail from rfl, List.cons_append]
  rw [searchFrom_cons]
  have h1 : matchHeadAt ('"' :: (c5headTail ++ (c5filler ++ c5tailL))) =
      dotScan (c5filler ++ c5tailL) := rfl
  rw [h1]
  have h2 : dotScan (c5filler ++ c5tailL) = dotScan c5tailL :=
    dotScan_replicate_a 2001 c5tailL
  rw [h2]
  have h3 : dotScan c5tailL = true := rfl
  rw [h3]
  rfl

/-- C5 counterexample: the two chunks `"type":"error" + 2001 filler chars`
and `"message":"reset at 2025-12-11 18:18:44"` concatenate to a text
containing the structured error shape (the pattern matches), yet the
detector never fires on them: the buffer exceeds the 2000-character cap
after the first chunk and is cut to its last 1000 characters, discarding
the error-type marker before the message half arrives. -/
theorem C5_counterexample_trimmed_buffer :
    apiErrorSearch c5chunks.flatten = true ∧
    (runDetector c5chunks).rate_limit_detected = false := by
  refine ⟨c5_searchJ, ?_⟩
  have hst : runDetector c5chunks =
      checkForRateLimit (checkForRateLimit .init (c5headL ++ c5filler)) c5tailL := by
    unfold runDetector c5chunks
    rw [List.foldl_cons, List.foldl_cons, List.foldl_nil]
  have e1 : checkForRateLimit .init (c5headL ++ c5filler) =
      RateLimitDetectorState.mk false [] (List.replicate 1000 'a') := by
    simp only [checkForRateLimit, RateLimitDetectorState.init, List.nil_append,
      c5_search1, Bool.false_eq_true, if_false, c5_trim1]
  have e2 : (checkForRateLimit
      (RateLimitDetectorState.mk false [] (List.replicate 1000 'a'))
      c5tailL).rate_limit_detected = false := by
    simp only [checkForRateLimit, c5_search2, Bool.false_eq_true, if_false]
  rw [hst, e1]
  exact e2

/-! ### C5, amended: detection under the buffer cap, and no false positives -/

/-! Positive half: without trimming, the buffer is the concatenation so far. -/

theorem checkForRateLimit_buffer (st : RateLimitDetectorState) (t : List Char) :
    (checkForRateLimit st t).buffer = trimBuffer (st.buffer ++ t) := by
  simp only [checkForRateLimit]
  split <;> rfl

theorem checkForRateLimit_detected (st : RateLimitDetectorState) (t : List Char) :
    (checkForRateLimit st t).rate_limit_detected =
      (st.rate_limit_detected || apiErrorSearch (st.buffer ++ t)) := by
  simp only [checkForRateLimit]
  split
  · next h => simp [h]
  · next h =>
    rw [Bool.not_eq_true] at h
    simp [h]

theorem trimBuffer_no_trim (b : List Char) (h : b.length ≤ 2000) :
    trimBuffer b = b := by
  unfold trimBuffer
  rw [if_neg (by omega)]

theorem detector_pos_aux :
    ∀ (chunks : List (List Char)) (st : RateLimitDetectorState),
    st.buffer.length + chunks.flatten.length ≤ 2000 →
    (st.rate_limit_detected = true ∨
      (chunks ≠ [] ∧ apiErrorSearch (st.buffer ++ chunks.flatten) = true)) →
    (chunks.foldl checkForRateLimit st).rate_limit_detected = true := by
  intro chunks
  induction chunks with
  | nil =>
    intro st _ hd
    rcases hd with hd | ⟨hne, _⟩
    · simpa using hd
    · exact absurd rfl hne
  | cons c rest ih =>
    intro st hlen hd
    rw [List.foldl_cons]
    simp only [List.flatten_cons] at hlen hd
    have hlen1 : (st.buffer ++ c).length ≤ 2000 := by
      simp only [List.length_append] at hlen ⊢
      omega
    have hbuf : (checkForRateLimit st c).buffer = st.buffer ++ c := by
      rw [checkForRateLimit_buffer, trimBuffer_no_trim _ hlen1]
    have hdet := checkForRateLimit_detected st c
    cases rest with
    | nil =>
      rw [List.foldl_nil, hdet]
      rcases hd with hd | ⟨_, hsearch⟩
      · rw [hd, Bool.true_or]
      · simp only [List.flatten_nil, List.append_nil] at hsearch
        rw [hsearch, Bool.or_true]
    | cons r rs =>
      apply ih
      · rw [hbuf]
        simp only [List.length_append] at hlen ⊢
        omega
      · rcases hd with hd | ⟨_, hsearch⟩
        · left
          rw [hdet, hd, Bool.true_or]
        · right
          refine ⟨by simp, ?_⟩
          rw [hbuf, List.append_assoc]
          exact hsearch

/-! Negative half: every buffer the detector ever searches is a contiguous
segment of the full concatenation, and a segment of a non-matching text
never matches. -/

theorem stripLit_append (p : List Char) :
    ∀ (xs r ys : List Char), stripLit p xs = some r →
      stripLit p (xs ++ ys) = some (r ++ ys) := by
  induction p with
  | nil =>
    intro xs r ys h
    simp only [stripLit, Option.some.injEq] at h
    subst h
    rfl
  | cons a ps ih =>
    intro xs r ys h
    cases xs with
    | nil => simp [stripLit] at h
    | cons x xs =>
      rw [List.cons_append]
      unfold stripLit at h ⊢
      by_cases hax : a = x
      · rw [if_pos hax] at h ⊢
        exact ih xs r ys h
      · rw [if_neg hax] at h
        exact absurd h (by simp)

theorem stripChar_eq_cons (c : Char) (l r : List Char)
    (h : stripChar c l = some r) : l = c :: r := by
  cases l with
  | nil => simp [stripChar] at h
  | cons x xs =>
    simp only [stripChar] at h
    by_cases hx : x = c
    · rw [if_pos hx] at h
      simp only [Option.some.injEq] at h
      rw [hx, h]
    · rw [if_neg hx] at h
      exact absurd h (by simp)

theorem stripChar_cons (c : Char) (l : List Char) :
    stripChar c (c :: l) = some l := by
  simp [stripChar]

theorem stripDigits_append (n : Nat) :
    ∀ (xs r ys : List Char), stripDigits n xs = some r →
      stripDigits n (xs ++ ys) = some (r ++ ys) := by
  induction n with
  | zero =>
    intro xs r ys h
    simp only [stripDigits, Option.some.injEq] at h
    subst h
    rfl
  | succ k ih =>
    intro xs r ys h
    cases xs with
    | nil => simp [stripDigits] at h
    | cons x xs =>
      rw [List.cons_append]
      unfold stripDigits at h ⊢
      by_cases hx : x.isDigit = true
      · rw [if_pos hx] at h ⊢
        exact ih xs r ys h
      · rw [if_neg hx] at h
        exact absurd h (by simp)

theorem stripParts_append (ps : List TsPart) :
    ∀ (xs r ys : List Char), stripParts ps xs = some r →
      stripParts ps (xs ++ ys) = some (r ++ ys) := by
  induction ps with
  | nil =>
    intro xs r ys h
    simp only [stripParts, Option.some.injEq] at h
    subst h
    rfl
  | cons p ps ih =>
    intro xs r ys h
    cases p with
    | digits n =>
      unfold stripParts at h ⊢
      cases hsd : stripDigits n xs with
      | none => rw [hsd] at h; simp at h
      | some r1 =>
        rw [hsd] at h
        rw [stripDigits_append n xs r1 ys hsd]
        exact ih r1 r ys h
    | ch c =>
      unfold stripParts at h ⊢
      cases hsc : stripChar c xs with
      | none => rw [hsc] at h; simp at h
      | some r1 =>
        rw [hsc] at h
        have hx := stripChar_eq_cons c xs r1 hsc
        subst hx
        rw [List.cons_append, stripChar_cons]
        exact ih r1 r ys h

theorem tsCheck_append (xs ys : List Char) (h : tsCheck xs = true) :
    tsCheck (xs ++ ys) = true := by
  unfold tsCheck at h ⊢
  cases hsp : stripParts tsSpec xs with
  | none => rw [hsp] at h; simp at h
  | some r =>
    rw [stripParts_append tsSpec xs r ys hsp]
    rfl

theorem dropSpaces_cons_append (xs : List Char) :
    ∀ (c : Char) (r ys : List Char), dropSpaces xs = c :: r →
      dropSpaces (xs ++ ys) = c :: (r ++ ys) := by
  induction xs with
  | nil => intro c r ys h; simp [dropSpaces] at h
  | cons x xs ih =>
    intro c r ys h
    rw [List.cons_append]
    unfold dropSpaces at h ⊢
    by_cases hx : isReWS x = true
    · rw [if_pos hx] at h ⊢
      exact ih c r ys h
    · rw [if_neg hx] at h ⊢
      rw [List.cons.injEq] at h
      obtain ⟨rfl, rfl⟩ := h
      rfl

theorem matchMsgFrom_append (xs : List Char) :
    ∀ ys : List Char, matchMsgFrom xs = true → matchMsgFrom (xs ++ ys) = true := by
  induction xs with
  | nil => intro ys h; simp [matchMsgFrom] at h
  | cons c cs ih =>
    intro ys h
    unfold matchMsgFrom at h
    rw [Bool.or_eq_true] at h
    rcases h with hA | hB
    · cases hsl : stripLit ("reset at ").data (c :: cs) with
      | none => rw [hsl] at hA; simp at hA
      | some r =>
        rw [hsl] at hA
        dsimp only at hA
        rw [List.cons_append]
        unfold matchMsgFrom
        have hsl2 := stripLit_append ("reset at ").data (c :: cs) r ys hsl
        rw [List.cons_append] at hsl2
        rw [hsl2]
        dsimp only
        rw [tsCheck_append r ys hA, Bool.true_or]
    · by_cases hq : c = dquote
      · rw [if_pos hq] at hB
        exact absurd hB (by simp)
      · rw [if_neg hq] at hB
        rw [List.cons_append]
        unfold matchMsgFrom
        rw [if_neg hq, ih ys hB, Bool.or_true]

theorem matchTailAt_append (xs ys : List Char) (h : matchTailAt xs = true) :
    matchTailAt (xs ++ ys) = true := by
  unfold matchTailAt at h ⊢
  cases hsl : stripLit ("\"message\"").data xs with
  | none => rw [hsl] at h; simp at h
  | some r =>
    rw [hsl] at h
    dsimp only at h
    rw [stripLit_append _ xs r ys hsl]
    dsimp only
    cases hsc : stripChar ':' (dropSpaces r) with
    | none => rw [hsc] at h; simp at h
    | some r2 =>
      rw [hsc] at h
      dsimp only at h
      have hds := stripChar_eq_cons ':' (dropSpaces r) r2 hsc
      rw [dropSpaces_cons_append r ':' r2 ys hds, stripChar_cons]
      dsimp only
      cases hsc2 : stripChar dquote (dropSpaces r2) with
      | none => rw [hsc2] at h; simp at h
      | some r3 =>
        rw [hsc2] at h
        dsimp only at h
        have hds2 := stripChar_eq_cons dquote (dropSpaces r2) r3 hsc2
        rw [dropSpaces_cons_append r2 dquote r3 ys hds2, stripChar_cons]
        dsimp only
        exact matchMsgFrom_append r3 ys h

theorem dotScan_append (xs : List Char) :
    ∀ ys : List Char, dotScan xs = true → dotScan (xs ++ ys) = true := by
  induction xs with
  | nil => intro ys h; simp [dotScan] at h
  | cons c cs ih =>
    intro ys h
    unfold dotScan at h
    rw [Bool.or_eq_true] at h
    rcases h with hA | hB
    · rw [List.cons_append]
      unfold dotScan
      have := matchTailAt_append (c :: cs) ys hA
      rw [List.cons_append] at this
      rw [this, Bool.true_or]
    · by_cases hn : c = '\n'
      · rw [if_pos hn] at hB
        exact absurd hB (by simp)
      · rw [if_neg hn] at hB
        rw [List.cons_append]
        unfold dotScan
        rw [if_neg hn, ih ys hB, Bool.or_true]

theorem matchHeadAt_append (xs ys : List Char) (h : matchHeadAt xs = true) :
    matchHeadAt (xs ++ ys) = true := by
  unfold matchHeadAt at h ⊢
  cases hsl : stripLit ("\"type\"").data xs with
  | none => rw [hsl] at h; simp at h
  | some r =>
    rw [hsl] at h
    dsimp only at h
    rw [stripLit_append _ xs r ys hsl]
    dsimp only
    cases hsc : stripChar ':' (dropSpaces r) with
    | none => rw [hsc] at h; simp at h
    | some r2 =>
      rw [hsc] at h
      dsimp only at h
      have hds := stripChar_eq_cons ':' (dropSpaces r) r2 hsc
      rw [dropSpaces_cons_append r ':' r2 ys hds, stripChar_cons]
      dsimp only
      cases hsl2 : stripLit ("\"error\"").data (dropSpaces r2) with
      | none => rw [hsl2] at h; simp at h
      | some r3 =>
        rw [hsl2] at h
        dsimp only at h
        cases hds2 : dropSpaces r2 with
        | nil => rw [hds2] at hsl2; simp [stripLit] at hsl2
        | cons d ds =>
          rw [hds2] at hsl2
          rw [dropSpaces_cons_append r2 d ds ys hds2]
          have hsl3 := stripLit_append ("\"error\"").data (d :: ds) r3 ys hsl2
          rw [List.cons_append] at hsl3
          rw [hsl3]
          dsimp only
          exact dotScan_append r3 ys h

theorem searchFrom_append_right (xs : List Char) :
    ∀ ys : List Char, searchFrom xs = true → searchFrom (xs ++ ys) = true := by
  induction xs with
  | nil => intro ys h; simp [searchFrom] at h
  | cons c cs ih =>
    intro ys h
    rw [searchFrom_cons] at h
    rw [Bool.or_eq_true] at h
    rcases h with hA | hB
    · rw [List.cons_append, searchFrom_cons]
      have := matchHeadAt_append (c :: cs) ys hA
      rw [List.cons_append] at this
      rw [this, Bool.true_or]
    · rw [List.cons_append, searchFrom_cons, ih ys hB, Bool.or_true]

theorem searchFrom_append_left (ys : List Char) (h : searchFrom ys = true) :
    ∀ xs : List Char, searchFrom (xs ++ ys) = true := by
  intro xs
  induction xs with
  | nil => simpa using h
  | cons c cs ih =>
    rw [List.cons_append, searchFrom_cons, ih, Bool.or_true]

theorem searchFrom_of_segment (b J : List Char) (hseg : isSegmentOf b J)
    (h : searchFrom b = true) : searchFrom J = true := by
  obtain ⟨u, v, rfl⟩ := hseg
  rw [List.append_assoc]
  exact searchFrom_append_left _ (searchFrom_append_right b v h) u

theorem seg_of_append_left (x y J : List Char)
    (h : isSegmentOf (x ++ y) J) : isSegmentOf x J := by
  obtain ⟨u, v, hJ⟩ := h
  exact ⟨u, y ++ v, by rw [← hJ]; simp [List.append_assoc]⟩

theorem seg_drop_left (k : Nat) (b rest J : List Char)
    (h : isSegmentOf (b ++ rest) J) : isSegmentOf (b.drop k ++ rest) J := by
  obtain ⟨u, v, hJ⟩ := h
  refine ⟨u ++ List.take k b, v, ?_⟩
  rw [← hJ]
  simp only [List.append_assoc]
  rw [← List.append_assoc (List.take k b), List.take_append_drop]

theorem detector_neg_aux :
    ∀ (chunks : List (List Char)) (st : RateLimitDetectorState) (J : List Char),
    apiErrorSearch J = false → st.rate_limit_detected = false →
    isSegmentOf (st.buffer ++ chunks.flatten) J →
    (chunks.foldl checkForRateLimit st).rate_limit_detected = false := by
  intro chunks
  induction chunks with
  | nil =>
    intro st J _ hdet _
    simpa using hdet
  | cons c rest ih =>
    intro st J hJ hdet hseg
    rw [List.foldl_cons]
    simp only [List.flatten_cons] at hseg
    rw [← List.append_assoc] at hseg
    have hbufseg : isSegmentOf (st.buffer ++ c) J :=
      seg_of_append_left _ _ _ hseg
    have hsearch : apiErrorSearch (st.buffer ++ c) = false := by
      by_contra h'
      rw [Bool.not_eq_false] at h'
      have hx : searchFrom J = true := searchFrom_of_segment _ _ hbufseg h'
      unfold apiErrorSearch at hJ
      rw [hx] at hJ
      exact absurd hJ (by simp)
    have hdet' : (checkForRateLimit st c).rate_limit_detected = false := by
      rw [checkForRateLimit_detected, hdet, hsearch]
      rfl
    apply ih _ J hJ hdet'
    rw [checkForRateLimit_buffer]
    unfold trimBuffer
    by_cases hl : (st.buffer ++ c).length > 2000
    · rw [if_pos hl]
      exact seg_drop_left _ _ _ _ hseg
    · rw [if_neg hl]
      exact hseg

/-- C5 amended: (a) if the chunks' concatenation matches the structured
error pattern and the total text stays within the 2000-character buffer cap
(so no trimming occurs), the detector fires — however the shape is split
across chunks, because each chunk is appended to the accumulating buffer
before matching; (b) for every chunk sequence whose concatenation does not
match the pattern — in particular ordinary text containing the word
`error` — the detector never fires. -/
theorem C5_amended_split_detection :
    (∀ chunks : List (List Char), chunks.flatten.length ≤ 2000 →
      apiErrorSearch chunks.flatten = true →
      (runDetector chunks).rate_limit_detected = true) ∧
    (∀ chunks : List (List Char), apiErrorSearch chunks.flatten = false →
      (runDetector chunks).rate_limit_detected = false) := by
  constructor
  · intro chunks hlen hmatch
    cases chunks with
    | nil => simp [apiErrorSearch, searchFrom] at hmatch
    | cons c rest =>
      apply detector_pos_aux
      · simpa [RateLimitDetectorState.init] using hlen
      · right
        exact ⟨by simp, by simpa [RateLimitDetectorState.init] using hmatch⟩
  · intro chunks hJ
    apply detector_neg_aux chunks .init chunks.flatten hJ rfl
    exact ⟨[], [], by simp [RateLimitDetectorState.init]⟩

/-- Witness for C5's amended theorem: the spec's example fragment split in
two fires the detector; two chunks of plain text containing `error` do
not. -/
theorem C5_amended_witness :
    ([specFragA, specFragB] : List (List Char)).flatten.length ≤ 2000 ∧
    apiErrorSearch ([specFragA, specFragB] : List (List Char)).flatten = true ∧
    (runDetector [specFragA, specFragB]).rate_limit_detected = true ∧
    apiErrorSearch plainErrorChunks.flatten = false ∧
    (runDetector plainErrorChunks).rate_limit_detected = false :=
  ⟨by decide, rfl,
   C5_amended_split_detection.1 [specFragA, specFragB] (by decide) rfl,
   rfl, C5_amended_split_detection.2 plainErrorChunks rfl⟩
